import Mathlib

/-!
# Verification of the Polymarket gap-detection engine

A shallow embedding, over `ℚ`, of the signal-aggregation and gap-detection
core of the repository (src/agents/gap_detector.py, sentiment_analyzer.py,
reporter.py, database/models.py), together with theorems settling the
frozen claims about it.  Python `float`/`Decimal` arithmetic is modelled by
exact rational arithmetic; Python `int()` truncation and `round()`
(round-half-to-even) are modelled explicitly.
-/

/-- Python `int(q)` on a rational: truncation toward zero. -/
def pyInt (q : ℚ) : ℤ :=
  if 0 ≤ q then ⌊q⌋ else -⌊-q⌋

theorem pyInt_eq_floor {q : ℚ} (h : 0 ≤ q) : pyInt q = ⌊q⌋ :=
  if_pos h

/-- Round to the nearest integer, ties to even (the rule used by Python `round`). -/
def roundHalfEven (q : ℚ) : ℤ :=
  let f := ⌊q⌋
  let r := q - (f : ℚ)
  if r < 1/2 then f
  else if 1/2 < r then f + 1
  else if f % 2 = 0 then f else f + 1

/-- Python `round(q, d)` on a rational. -/
def pyRound (q : ℚ) (d : ℕ) : ℚ :=
  (roundHalfEven (q * 10 ^ d) : ℚ) / 10 ^ d

/-! ## String constants of the source (gap types, labels, directions) -/

def labelPositive : String := "positive"
def labelNeutral : String := "neutral"
def dirBullish : String := "bullish"
def dirBearish : String := "bearish"
def gtSentimentMismatch : String := "sentiment_mismatch"

/-! ## C1 : GapDetectionAgent.detect_sentiment_mismatch

Embedding of src/agents/gap_detector.py lines 101-197.  A `SentimentRow` is
one row of the `sentiment_analysis` table as the detector reads it.  The
LLM-generated explanation text and the Decimal/str conversions are elided;
`round(x, d)` used for the stored fields is modelled by `pyRound`.  Python's
truthiness test `not contract.current_yes_odds` is `none` or zero. -/

structure SentimentRow where
  sentiment_score : ℚ
  sentiment_label : String
deriving DecidableEq, Repr

structure SentimentGap where
  gap_type : String
  confidence_score : ℤ
  market_odds : ℚ
  implied_odds : ℚ
  edge_percentage : ℚ
  direction : String
  gap_size : ℚ
deriving DecidableEq, Repr

def detect_sentiment_mismatch (threshold : ℚ) (current_yes_odds : Option ℚ)
    (rows : List SentimentRow) : Option SentimentGap :=
  match current_yes_odds with
  | none => none
  | some odds =>
    if odds = 0 then none
    else if rows.length < 5 then none
    else
      let n : ℚ := rows.length
      let avg_sentiment := ((rows.map SentimentRow.sentiment_score).sum) / n
      let positive_ratio : ℚ :=
        (((rows.filter fun r => r.sentiment_label == labelPositive).length : ℚ)) / n
      let implied_prob := 1/2 + avg_sentiment * (2/5)
      let market_odds := odds
      let gap_size := |implied_prob - market_odds|
      if gap_size < threshold then none
      else
        let direction := if market_odds < implied_prob then dirBullish else dirBearish
        let edge :=
          if market_odds < implied_prob then (implied_prob - market_odds) * 100
          else (market_odds - implied_prob) * 100
        let gap_factor := min (gap_size / (3/10)) 1 * 40
        let volume_factor := min (n / 50) 1 * 30
        let consistency_factor := |positive_ratio - 1/2| * 2 * 30
        let confidence := pyInt (gap_factor + volume_factor + consistency_factor)
        some { gap_type := gtSentimentMismatch
               confidence_score := confidence
               market_odds := market_odds
               implied_odds := pyRound implied_prob 4
               edge_percentage := pyRound edge 2
               direction := direction
               gap_size := pyRound gap_size 3 }

/-- The concrete scenario of the claim: 20 records with average sentiment 0.6
and positive ratio 0.8 (16 positive, 4 neutral, all scores 0.6). -/
def c1Rows : List SentimentRow :=
  List.replicate 16 ⟨3/5, labelPositive⟩ ++ List.replicate 4 ⟨3/5, labelNeutral⟩

def c1Expected : SentimentGap :=
  { gap_type := gtSentimentMismatch
    confidence_score := 70
    market_odds := 3/10
    implied_odds := 37/50
    edge_percentage := 44
    direction := dirBullish
    gap_size := 11/25 }

/-- Mean sentiment over the rows, as the detector computes it. -/
def smAvg (rows : List SentimentRow) : ℚ :=
  ((rows.map SentimentRow.sentiment_score).sum) / rows.length

/-- Share of rows labelled positive, as the detector computes it. -/
def smPosRatio (rows : List SentimentRow) : ℚ :=
  (((rows.filter fun r => r.sentiment_label == labelPositive).length : ℚ)) / rows.length

/-- Implied probability `0.5 + avg_sentiment * 0.4`. -/
def smImplied (rows : List SentimentRow) : ℚ := 1/2 + smAvg rows * (2/5)

/-- The sentiment gap `|implied_prob - market_odds|`. -/
def smGap (rows : List SentimentRow) (odds : ℚ) : ℚ := |smImplied rows - odds|

/-- C1: for every contract with at least 5 sentiment records and a (nonzero)
current yes-odds value, `detect_sentiment_mismatch` computes
`implied_prob = 0.5 + avg_sentiment*0.4` and `gap = |implied_prob - market_odds|`,
returns no candidate when the gap is below the threshold, and otherwise emits a
candidate whose direction is bullish iff `implied_prob > market_odds`, whose
edge is `|implied_prob - market_odds| * 100` (stored rounded to 2 decimals, as
the source does), and whose integer confidence is
`⌊min(gap/0.3,1)*40 + min(n/50,1)*30 + |positive_ratio-0.5|*2*30⌋`;
on the claim's concrete scenario (avg 0.6, positive ratio 0.8, n = 20,
market odds 0.30, threshold 0.15) it yields implied 0.74, gap 0.44, direction
bullish, edge 44.0 and confidence 70. -/
theorem c1_sentiment_mismatch_spec (threshold odds : ℚ) (rows : List SentimentRow)
    (h5 : 5 ≤ rows.length) (h0 : odds ≠ 0) :
    (smGap rows odds < threshold →
       detect_sentiment_mismatch threshold (some odds) rows = none) ∧
    (threshold ≤ smGap rows odds →
       detect_sentiment_mismatch threshold (some odds) rows = some
         { gap_type := gtSentimentMismatch
           confidence_score :=
             ⌊min (smGap rows odds / (3/10)) 1 * 40 + min ((rows.length : ℚ) / 50) 1 * 30
               + |smPosRatio rows - 1/2| * 2 * 30⌋
           market_odds := odds
           implied_odds := pyRound (smImplied rows) 4
           edge_percentage := pyRound (|smImplied rows - odds| * 100) 2
           direction := if odds < smImplied rows then dirBullish else dirBearish
           gap_size := pyRound (smGap rows odds) 3 }) ∧
    detect_sentiment_mismatch (3/20) (some (3/10)) c1Rows = some c1Expected := by
  have hlt : ¬ rows.length < 5 := Nat.not_lt.mpr h5
  refine ⟨?_, ?_, ?_⟩
  · intro h
    simp only [detect_sentiment_mismatch, if_neg h0, if_neg hlt]
    simp only [smGap, smImplied, smAvg] at h
    rw [if_pos h]
  · intro h
    simp only [detect_sentiment_mismatch, if_neg h0, if_neg hlt]
    simp only [smGap, smImplied, smAvg, smPosRatio] at h ⊢
    rw [if_neg (not_lt.mpr h)]
    have hnn : (0:ℚ) ≤
        min (|1/2 + ((rows.map SentimentRow.sentiment_score).sum) / rows.length * (2/5) - odds| / (3/10)) 1 * 40
          + min ((rows.length : ℚ) / 50) 1 * 30
          + |(((rows.filter fun r => r.sentiment_label == labelPositive).length : ℚ)) / rows.length - 1/2| * 2 * 30 :=
      add_nonneg
        (add_nonneg
          (mul_nonneg (le_min (by positivity) zero_le_one) (by norm_num))
          (mul_nonneg (le_min (by positivity) zero_le_one) (by norm_num)))
        (mul_nonneg (mul_nonneg (abs_nonneg _) (by norm_num)) (by norm_num))
    rw [pyInt_eq_floor hnn]
    rcases lt_or_le odds (1/2 + ((rows.map SentimentRow.sentiment_score).sum) / rows.length * (2/5)) with hd | hd
    · simp only [if_pos hd, abs_of_pos (sub_pos.mpr hd)]
    · simp only [if_neg (not_lt.mpr hd), abs_of_nonpos (sub_nonpos.mpr hd), neg_sub]
  · simp only [detect_sentiment_mismatch, c1Rows, c1Expected]
    simp [labelPositive, labelNeutral, List.filter_replicate]
    norm_num [pyInt, pyRound, roundHalfEven, min_def, abs, dirBullish, gtSentimentMismatch]

/-- Witness for C1: the hypotheses are satisfied by the concrete scenario. -/
theorem c1_sentiment_mismatch_spec_witness :
    5 ≤ c1Rows.length ∧ (3:ℚ)/10 ≠ 0 ∧
      detect_sentiment_mismatch (3/20) (some (3/10)) c1Rows = some c1Expected := by
  refine ⟨by simp [c1Rows], by norm_num, ?_⟩
  exact (c1_sentiment_mismatch_spec (3/20) (3/10) c1Rows (by simp [c1Rows]) (by norm_num)).2.2

/-! ## C7 : GapDetectionAgent.detect_pattern_deviation

Embedding of src/agents/gap_detector.py lines 319-397.  The source computes
`std_dev = variance ** 0.5` in floating point; a square root is irrational in
general, so the embedding takes `std_dev` as a parameter, constrained in the
theorem by `0 ≤ std_dev` and `std_dev ^ 2 = pattern_variance odds_values`.
The LLM explanation and Decimal/str conversions are elided; `round(x, d)` is
`pyRound`. -/

def gtPatternDeviation : String := "pattern_deviation"

/-- Arithmetic mean of the odds series (`sum(odds_values) / len(odds_values)`). -/
def pattern_mean (odds_values : List ℚ) : ℚ := odds_values.sum / odds_values.length

/-- Population variance (`sum((x - avg)**2 for x in odds_values) / len(odds_values)`). -/
def pattern_variance (odds_values : List ℚ) : ℚ :=
  ((odds_values.map fun x => (x - pattern_mean odds_values) ^ 2).sum) / odds_values.length

/-- The current value: the last point of the chronological series (`odds_values[-1]`). -/
def phCurrent (odds_values : List ℚ) : ℚ := odds_values.getLast?.getD 0

/-- The z-score `(current - mean) / std_dev if std_dev > 0 else 0`. -/
def phZ (odds_values : List ℚ) (std_dev : ℚ) : ℚ :=
  if 0 < std_dev then (phCurrent odds_values - pattern_mean odds_values) / std_dev else 0

structure PatternGap where
  gap_type : String
  confidence_score : ℤ
  implied_odds : ℚ
  edge_percentage : ℚ
deriving DecidableEq, Repr

def detect_pattern_deviation (enable_historical_analysis : Bool) (odds_values : List ℚ)
    (std_dev : ℚ) : Option PatternGap :=
  if !enable_historical_analysis then none
  else if odds_values.length < 10 then none
  else
    let current_odds := phCurrent odds_values
    let avg_odds := pattern_mean odds_values
    let z_score := phZ odds_values std_dev
    if |z_score| < 2 then none
    else some { gap_type := gtPatternDeviation
                confidence_score := pyInt (min (|z_score| / 3) 1 * 70 + 10)
                implied_odds := pyRound avg_odds 4
                edge_percentage := pyRound (|current_odds - avg_odds| * 100) 2 }

/-- The claim's concrete series: 10 points with mean 0.50, population standard
deviation 0.05 and current value 0.62. -/
def c7Series : List ℚ := [2/5, 12/25, 51/100, 49/100, 1/2, 1/2, 1/2, 1/2, 1/2, 31/50]

def c7Expected : PatternGap :=
  { gap_type := gtPatternDeviation
    confidence_score := 66
    implied_odds := 1/2
    edge_percentage := 12 }

/-- C7: for every chronological odds series of at least 10 points (with the
historical-analysis feature on), the detector uses the last point as current
value, the arithmetic mean and the population variance over the full series
(`std_dev` being its square root, passed here as a constrained parameter),
`z = (current - mean)/std_dev` with `z = 0` when `std_dev = 0`; it returns no
candidate when `|z| < 2` and otherwise emits integer confidence
`⌊min(|z|/3,1)*70 + 10⌋`; with fewer than 10 points it returns no candidate;
the claim's scenario (mean 0.50, stddev 0.05, current 0.62) gives z = 2.4 and
confidence 66. -/
theorem c7_pattern_deviation_spec (odds_values : List ℚ) (std_dev : ℚ)
    (hstd : 0 ≤ std_dev) (hvar : std_dev ^ 2 = pattern_variance odds_values) :
    (odds_values.length < 10 →
       detect_pattern_deviation true odds_values std_dev = none) ∧
    (std_dev = 0 → detect_pattern_deviation true odds_values std_dev = none) ∧
    (10 ≤ odds_values.length → |phZ odds_values std_dev| < 2 →
       detect_pattern_deviation true odds_values std_dev = none) ∧
    (10 ≤ odds_values.length → 2 ≤ |phZ odds_values std_dev| →
       detect_pattern_deviation true odds_values std_dev = some
         { gap_type := gtPatternDeviation
           confidence_score := ⌊min (|phZ odds_values std_dev| / 3) 1 * 70 + 10⌋
           implied_odds := pyRound (pattern_mean odds_values) 4
           edge_percentage :=
             pyRound (|phCurrent odds_values - pattern_mean odds_values| * 100) 2 }) ∧
    detect_pattern_deviation true c7Series (1/20) = some c7Expected := by
  refine ⟨?_, ?_, ?_, ?_, ?_⟩
  · intro h
    simp only [detect_pattern_deviation, Bool.not_true, Bool.false_eq_true, if_false,
      if_pos h]
  · intro h
    by_cases hlen : odds_values.length < 10
    · simp only [detect_pattern_deviation, Bool.not_true, Bool.false_eq_true, if_false,
        if_pos hlen]
    · have hz : phZ odds_values std_dev = 0 := by
        simp [phZ, h]
      simp only [detect_pattern_deviation, Bool.not_true, Bool.false_eq_true, if_false,
        if_neg hlen, hz]
      norm_num
  · intro hlen h
    simp only [detect_pattern_deviation, Bool.not_true, Bool.false_eq_true, if_false,
      if_neg (Nat.not_lt.mpr hlen), if_pos h]
  · intro hlen h
    have hnn : (0:ℚ) ≤ min (|phZ odds_values std_dev| / 3) 1 * 70 + 10 :=
      add_nonneg (mul_nonneg (le_min (by positivity) zero_le_one) (by norm_num)) (by norm_num)
    simp only [detect_pattern_deviation, Bool.not_true, Bool.false_eq_true, if_false,
      if_neg (Nat.not_lt.mpr hlen), if_neg (not_lt.mpr h), pyInt_eq_floor hnn]
  · norm_num [detect_pattern_deviation, phZ, phCurrent, pattern_mean, c7Series, c7Expected,
      pyInt, pyRound, roundHalfEven, min_def, abs, gtPatternDeviation, List.getLast?]

/-- Witness for C7: the hypotheses hold for the concrete series of the claim
(population variance 1/400 = (1/20)^2). -/
theorem c7_pattern_deviation_spec_witness :
    ((0:ℚ) ≤ 1/20 ∧ (1/20 : ℚ)^2 = pattern_variance c7Series) ∧
      detect_pattern_deviation true c7Series (1/20) = some c7Expected := by
  have hv : (1/20 : ℚ)^2 = pattern_variance c7Series := by
    norm_num [pattern_variance, pattern_mean, c7Series]
  exact ⟨⟨by norm_num, hv⟩,
    (c7_pattern_deviation_spec c7Series (1/20) (by norm_num) hv).2.2.2.2⟩

/-! ## A small model of Python/JSON values

Used to embed the parsing loops of `_match_markets_with_llm` (gap_detector.py)
and `_analyze_batch` / `_analyze_single_post` (sentiment_analyzer.py), whose
inputs are arbitrary structured data parsed from LLM text. -/

inductive PyVal where
  | num (q : ℚ)
  | str (s : String)
  | bool (b : Bool)
  | null
  | list (items : List PyVal)
  | dict (fields : List (String × PyVal))

/-- Python truthiness (`if x:`). -/
def PyVal.truthy : PyVal → Bool
  | .num q => if q = 0 then false else true
  | .str s => if s = "" then false else true
  | .bool b => b
  | .null => false
  | .list items => match items with | [] => false | _ => true
  | .dict fields => match fields with | [] => false | _ => true

/-- Key lookup in a parsed object (`item.get(k)` / `item[k]`); keys are assumed
distinct, as produced by a JSON parser. -/
def PyVal.lookup (fields : List (String × PyVal)) (k : String) : Option PyVal :=
  match fields with
  | [] => none
  | (k', v) :: rest => if k' = k then some v else PyVal.lookup rest k

/-- Python `float(x)`: numbers and booleans convert, everything else raises
(`ValueError`/`TypeError`); numeric strings are not modelled. -/
def pyFloat : PyVal → Option ℚ
  | .num q => some q
  | .bool b => some (if b then 1 else 0)
  | _ => none

/-- Python `int(x)` (truncation toward zero); non-numeric raises. -/
def pyToInt : PyVal → Option ℤ
  | .num q => some (pyInt q)
  | .bool b => some (if b then 1 else 0)
  | _ => none

/-- Python `x >= c` for a float `c`: defined for numbers and booleans, a
`TypeError` (`none`) otherwise. -/
def pyGeRat : PyVal → ℚ → Option Bool
  | .num q, c => some (if c ≤ q then true else false)
  | .bool b, c => some (if c ≤ (if b then (1:ℚ) else 0) then true else false)
  | _, _ => none

/-! ## C6 : GapDetectionAgent._match_markets_with_llm

Embedding of src/agents/gap_detector.py lines 477-542.  The LLM call and
`_clean_json`+`json.loads` are modelled by the `response` parameter: `none` is
the `json.JSONDecodeError` path, `some v` the successfully parsed value.  The
loop body's `except (KeyError, ValueError, TypeError): continue` makes a
malformed item contribute nothing (`Except.ok none`); an `AttributeError`
(`.get` on a non-dict item) is not in that tuple, escapes the loop and is
caught by the outer handler, which returns `[]` (`Except.error`). -/

/-- Run `f` over the list left to right, stopping at the first exception
(the semantics of a Python `for` loop whose body may raise). -/
def exceptMapM (f : α → Except ε β) : List α → Except ε (List β)
  | [] => .ok []
  | a :: rest =>
    match f a with
    | .error e => .error e
    | .ok b =>
      match exceptMapM f rest with
      | .error e => .error e
      | .ok bs => .ok (b :: bs)

/-- Run `f` over the list left to right, stopping at the first failure. -/
def optionMapM (f : α → Option β) : List α → Option (List β)
  | [] => some []
  | a :: rest =>
    match f a with
    | none => none
    | some b =>
      match optionMapM f rest with
      | none => none
      | some bs => some (b :: bs)

def keyMatch : String := "match"
def keyConfidence : String := "confidence"
def keyIndex : String := "index"

structure MarketCandidate where
  platform : String
  market_id : String
  question : String
  probability : ℚ
deriving DecidableEq, Repr

def matchJudgmentStep (candidates : List MarketCandidate) (item : PyVal) :
    Except Unit (Option (MarketCandidate × ℚ)) :=
  match item with
  | .dict fields =>
    let mv := (PyVal.lookup fields keyMatch).getD .null
    if mv.truthy then
      let cv := (PyVal.lookup fields keyConfidence).getD (.num 0)
      match pyGeRat cv (3/5) with
      | none => .ok none
      | some false => .ok none
      | some true =>
        match PyVal.lookup fields keyIndex with
        | none => .ok none
        | some iv =>
          match pyToInt iv with
          | none => .ok none
          | some i =>
            let idx := i - 1
            if 0 ≤ idx then
              match candidates.get? idx.toNat with
              | none => .ok none
              | some candidate =>
                match pyFloat cv with
                | none => .ok none
                | some c => .ok (some (candidate, c))
            else .ok none
    else .ok none
  | _ => .error ()

def match_markets_with_llm (candidates : List MarketCandidate) (response : Option PyVal) :
    List (MarketCandidate × ℚ) :=
  match candidates with
  | [] => []
  | _ =>
    let cands := candidates.take 8
    match response with
    | none => []
    | some v =>
      let parsed := match v with | .list l => l | x => [x]
      match exceptMapM (matchJudgmentStep cands) parsed with
      | .error _ => []
      | .ok opts => opts.reduceOption

def c6Cand1 : MarketCandidate :=
  { platform := "kalshi", market_id := "K1", question := "Q1", probability := 3/5 }
def c6Cand2 : MarketCandidate :=
  { platform := "manifold", market_id := "M1", question := "Q2", probability := 1/2 }
def c6Cands : List MarketCandidate := [c6Cand1, c6Cand2]

/-- A judgment at the exact confidence boundary 0.6 with `match = true`. -/
def c6Item : PyVal :=
  .dict [(keyIndex, .num 1), (keyMatch, .bool true), (keyConfidence, .num (3/5))]

/-- C6: for every parsed candidate judgment (a JSON object with a boolean
`match`, a numeric `confidence` and a numeric in-range 1-based `index`), the
candidate is confirmed iff `match = true` and `confidence ≥ 0.6`, and a
confirmed candidate is returned annotated with its match confidence; a
judgment with confidence 0.55 is never confirmed for any candidate list;
a judgment with `match = true` and confidence exactly 0.6 is confirmed; an
empty candidate list yields an empty result. -/
theorem c6_match_judgment_spec
    (cands : List MarketCandidate) (fields : List (String × PyVal))
    (m : Bool) (c : ℚ) (i : ℕ)
    (hm : PyVal.lookup fields keyMatch = some (.bool m))
    (hc : PyVal.lookup fields keyConfidence = some (.num c))
    (hi : PyVal.lookup fields keyIndex = some (.num (i : ℚ)))
    (hi1 : 1 ≤ i) (hrange : i - 1 < (cands.take 8).length) :
    ((∃ cand, (cands.take 8).get? (i - 1) = some cand ∧
        matchJudgmentStep (cands.take 8) (.dict fields) = .ok (some (cand, c))) ↔
      (m = true ∧ 3/5 ≤ c)) ∧
    (∀ (cands' : List MarketCandidate) (fields' : List (String × PyVal)),
        PyVal.lookup fields' keyConfidence = some (.num (11/20)) →
        matchJudgmentStep cands' (.dict fields') = .ok none) ∧
    (∀ response, match_markets_with_llm [] response = []) ∧
    match_markets_with_llm c6Cands (some (.list [c6Item])) = [(c6Cand1, 3/5)] := by
  refine ⟨?_, ?_, ?_, ?_⟩
  · obtain ⟨cand0, hcand0⟩ : ∃ cand, (cands.take 8).get? (i - 1) = some cand :=
      ⟨_, List.get?_eq_get hrange⟩
    constructor
    · rintro ⟨cand, hget, hstep⟩
      by_cases hmt : m = true
      · refine ⟨hmt, ?_⟩
        by_cases hcge : (3:ℚ)/5 ≤ c
        · exact hcge
        · exfalso
          simp only [matchJudgmentStep, hm, hc, hi, hmt, Option.getD_some, PyVal.truthy,
            if_true, pyGeRat, pyToInt, pyFloat, if_neg hcge] at hstep
          simp at hstep
      · exfalso
        simp only [Bool.not_eq_true] at hmt
        simp only [matchJudgmentStep, hm, hc, hi, hmt, Option.getD_some, PyVal.truthy] at hstep
        simp at hstep
    · rintro ⟨hmt, hcge⟩
      refine ⟨cand0, hcand0, ?_⟩
      have h0 : (0:ℤ) ≤ pyInt ((i : ℕ) : ℚ) - 1 := by
        rw [pyInt_eq_floor (by positivity), Int.floor_natCast]
        omega
      have hpy : (pyInt ((i : ℕ) : ℚ) - 1).toNat = i - 1 := by
        rw [pyInt_eq_floor (by positivity), Int.floor_natCast]
        omega
      simp only [matchJudgmentStep, hm, hc, hi, hmt, Option.getD_some, PyVal.truthy,
        if_true, pyGeRat, pyToInt, pyFloat, if_pos hcge, if_pos h0, hpy, hcand0]
  · intro cands' fields' hc'
    simp only [matchJudgmentStep, hc', Option.getD_some]
    rcases htr : ((PyVal.lookup fields' keyMatch).getD .null).truthy with _ | _
    · simp
    · simp only [if_true, pyGeRat, if_neg (by norm_num : ¬ ((3:ℚ)/5 ≤ 11/20))]
  · intro response
    rfl
  · have hstep : matchJudgmentStep [c6Cand1, c6Cand2] c6Item = .ok (some (c6Cand1, 3/5)) := by
      simp [matchJudgmentStep, c6Item, c6Cands, c6Cand1, PyVal.lookup, keyIndex, keyMatch,
        keyConfidence, PyVal.truthy, pyGeRat, pyToInt, pyFloat]
      norm_num [pyInt]
    simp only [match_markets_with_llm, c6Cands] at hstep ⊢
    simp [exceptMapM, hstep, List.reduceOption]

/-- Witness for C6: the boundary judgment (match=true, confidence exactly 0.6,
index 1) is confirmed on a concrete candidate list, and the empty candidate
list yields an empty result. -/
theorem c6_match_judgment_spec_witness :
    match_markets_with_llm c6Cands (some (.list [c6Item])) = [(c6Cand1, 3/5)] ∧
    match_markets_with_llm [] (some (.list [c6Item])) = [] := by
  have h := c6_match_judgment_spec c6Cands
    [(keyIndex, .num 1), (keyMatch, .bool true), (keyConfidence, .num (3/5))]
    true (3/5) 1
    (by simp [PyVal.lookup, keyIndex, keyMatch, keyConfidence])
    (by simp [PyVal.lookup, keyIndex, keyMatch, keyConfidence])
    (by simp [PyVal.lookup, keyIndex, keyMatch, keyConfidence])
    (le_refl 1)
    (by simp [c6Cands])
  exact ⟨h.2.2.2, h.2.2.1 (some (.list [c6Item]))⟩

/-! ## C9 : GapDetectionAgent.detect_cross_market_arbitrage confidence

Embedding of the confidence computation of src/agents/gap_detector.py lines
596-615: for each confirmed match, `edge = |polymarket_prob - competitor_prob|`
is gated by the configured minimum and the confidence is
`int(min(edge/0.3,1)*50 + match_confidence*30 + 20)`.  The match_confidence
taken from the LLM judgment is nowhere clamped to [0,1], although
database/models.py declares `CheckConstraint(confidence_score <= 100)`. -/

def arbitrage_confidence (edge : ℚ) (match_confidence : ℚ) : ℤ :=
  pyInt (min (edge / (3/10)) 1 * 50 + match_confidence * 30 + 20)

def arbitrage_gap_for_match (min_edge polymarket_prob competitor_prob match_confidence : ℚ) :
    Option ℤ :=
  let edge := |polymarket_prob - competitor_prob|
  if edge < min_edge then none
  else some (arbitrage_confidence edge match_confidence)

def c9Cand : MarketCandidate :=
  { platform := "manifold", market_id := "M9", question := "Q9", probability := 3/5 }

/-- A judgment the matcher confirms (match=true, 1.5 ≥ 0.6) whose confidence
exceeds 1, which the code never clamps. -/
def c9Item : PyVal :=
  .dict [(keyIndex, .num 1), (keyMatch, .bool true), (keyConfidence, .num (3/2))]

/-- C9 (code bug): a confirmed match with judgment confidence 1.5 (accepted by
the ≥ 0.6 gate and not clamped) and price edge 0.3 yields arbitrage confidence
`int(min(0.3/0.3,1)*50 + 1.5*30 + 20) = 115 > 100`, contradicting the claim
and the model's own `CheckConstraint(confidence_score <= 100)`. -/
theorem c9_arbitrage_confidence_overflow :
    match_markets_with_llm [c9Cand] (some (.list [c9Item])) = [(c9Cand, 3/2)] ∧
    arbitrage_gap_for_match (1/10) (3/10) (3/5) (3/2) = some 115 ∧
    ¬ ((115:ℤ) ≤ 100) := by
  refine ⟨?_, ?_, by norm_num⟩
  · have hstep : matchJudgmentStep [c9Cand] c9Item = .ok (some (c9Cand, 3/2)) := by
      simp [matchJudgmentStep, c9Item, c9Cand, PyVal.lookup, keyIndex, keyMatch,
        keyConfidence, PyVal.truthy, pyGeRat, pyToInt, pyFloat]
      norm_num [pyInt]
    simp only [match_markets_with_llm] at hstep ⊢
    simp [exceptMapM, hstep, List.reduceOption]
  · simp only [arbitrage_gap_for_match, arbitrage_confidence]
    norm_num [pyInt, min_def, abs, max_def]

/-! ## C4 / C5 : SentimentAnalysisAgent._analyze_batch and _analyze_single_post

Embedding of src/agents/sentiment_analyzer.py lines 123-250.  One parsed item
is turned into a record by the dict literal at lines 163-168 / 238-243: the
`except (KeyError, ValueError, TypeError)` around it makes a missing key, a
non-numeric score/confidence or a non-sliceable topics value a per-item
failure (`Except.ok none`); `.lower()` on a non-string label raises an
`AttributeError` which that tuple does not catch (`Except.error`), landing in
the enclosing `except Exception` handler.  The LLM call, `_clean_json` and
`json.loads` are modelled by the `LLMParseOutcome` parameter; `json.loads` on
regex-extracted fragments and the single-post fallback calls are oracles
(`loadObj`, `single`), since each is a fresh external interaction. -/

def keySentimentScore : String := "sentiment_score"
def keySentimentLabel : String := "sentiment_label"
def keyTopics : String := "topics"

/-- Python `s.lower()`, modelled character by character (ASCII-adequate). -/
def pyLower (s : String) : String := String.mk (s.toList.map Char.toLower)

/-- Python `x[:5]`: lists and strings slice, anything else raises `TypeError`. -/
def pySlice5 : PyVal → Option PyVal
  | .list items => some (.list (items.take 5))
  | .str s => some (.str (String.mk (s.toList.take 5)))
  | _ => none

structure SentimentParsed where
  score : ℚ
  label : String
  confidence : ℚ
  topics : PyVal

def parseSentimentItem (item : PyVal) : Except Unit (Option SentimentParsed) :=
  match item with
  | .dict fields =>
    match PyVal.lookup fields keySentimentScore with
    | none => .ok none
    | some sv =>
      match pyFloat sv with
      | none => .ok none
      | some s =>
        match PyVal.lookup fields keySentimentLabel with
        | none => .ok none
        | some lv =>
          match lv with
          | .str lab =>
            match PyVal.lookup fields keyConfidence with
            | none => .ok none
            | some cv =>
              match pyFloat cv with
              | none => .ok none
              | some c =>
                match pySlice5 ((PyVal.lookup fields keyTopics).getD (.list [])) with
                | none => .ok none
                | some t =>
                  .ok (some { score := max (-1) (min 1 s)
                              label := pyLower lab
                              confidence := max 0 (min 1 c)
                              topics := t })
          | _ => .error ()
  | _ => .ok none

/-- `_analyze_single_post` parsing: its broad `except Exception` turns every
failure, including the `AttributeError`, into `None`. -/
def analyze_single_post (response : Option PyVal) : Option SentimentParsed :=
  match response with
  | none => none
  | some v =>
    match parseSentimentItem v with
    | .error _ => none
    | .ok r => r

/-- The `while len(results) < len(contents): results.append(None)` padding. -/
def padNone (l : List (Option SentimentParsed)) (n : ℕ) : List (Option SentimentParsed) :=
  l ++ List.replicate (n - l.length) none

def isBraceFree (c : Char) : Bool := !(c == '\x7b') && !(c == '\x7d')

/-- `re.findall(r'\x7b[^\x7b\x7d]+\x7d', text)`: left-to-right, non-overlapping
maximal scan for brace-delimited fragments with a nonempty brace-free body. -/
def findObjectsAux : List Char → List String
  | [] => []
  | c :: rest =>
    if c = '\x7b' then
      match h : rest.dropWhile isBraceFree with
      | d :: r2 =>
        if d = '\x7d' then
          if (rest.takeWhile isBraceFree).isEmpty then findObjectsAux (d :: r2)
          else String.mk ('\x7b' :: (rest.takeWhile isBraceFree ++ ['\x7d'])) :: findObjectsAux r2
        else findObjectsAux (d :: r2)
      | [] => []
    else findObjectsAux rest
termination_by cs => cs.length
decreasing_by
  · have h2 := (List.dropWhile_sublist isBraceFree (l := rest)).length_le
    rw [h] at h2
    simp only [List.length_cons] at h2 ⊢
    omega
  · have h2 := (List.dropWhile_sublist isBraceFree (l := rest)).length_le
    rw [h] at h2
    simp only [List.length_cons] at h2 ⊢
    omega
  · have h2 := (List.dropWhile_sublist isBraceFree (l := rest)).length_le
    rw [h] at h2
    simp only [List.length_cons] at h2 ⊢
    omega
  · simp only [List.length_cons]
    omega

def findObjects (s : String) : List String := findObjectsAux s.toList

/-- Outcome of `json.loads(self._clean_json(self._invoke_llm(prompt)))`. -/
inductive LLMParseOutcome where
  | parsed (v : PyVal)
  | decodeError (raw : String)
  | otherError

def analyze_batch (contents : List String) (outcome : LLMParseOutcome)
    (loadObj : String → Option PyVal)
    (single : String → Option SentimentParsed) : List (Option SentimentParsed) :=
  match outcome with
  | .otherError => List.replicate contents.length none
  | .parsed v =>
    let parsed := match v with | .list l => l | x => [x]
    match exceptMapM parseSentimentItem (parsed.take contents.length) with
    | .error _ => List.replicate contents.length none
    | .ok results => padNone results contents.length
  | .decodeError raw =>
    let objects := findObjects raw
    if contents.length ≤ objects.length then
      match optionMapM loadObj (objects.take contents.length) with
      | none => contents.map single
      | some objs =>
        match exceptMapM parseSentimentItem objs with
        | .error _ => contents.map single
        | .ok results => padNone results contents.length
    else contents.map single

theorem exceptMapM_ok_length {α ε β : Type} (f : α → Except ε β) :
    ∀ (l : List α) (r : List β), exceptMapM f l = .ok r → r.length = l.length := by
  intro l
  induction l with
  | nil =>
    intro r h
    simp only [exceptMapM, Except.ok.injEq] at h
    subst h
    rfl
  | cons a rest ih =>
    intro r h
    simp only [exceptMapM] at h
    rcases hfa : f a with e | b <;> rw [hfa] at h
    · simp at h
    · rcases hrec : exceptMapM f rest with e | bs <;> rw [hrec] at h
      · simp at h
      · simp only [Except.ok.injEq] at h
        subst h
        simp [ih bs hrec]

theorem exceptMapM_ok_get {α ε β : Type} (f : α → Except ε β) :
    ∀ (l : List α) (r : List β), exceptMapM f l = .ok r →
      ∀ (i : ℕ) (b : β), r.get? i = some b → ∃ a, l.get? i = some a ∧ f a = .ok b := by
  intro l
  induction l with
  | nil =>
    intro r h i b hb
    simp only [exceptMapM, Except.ok.injEq] at h
    subst h
    simp at hb
  | cons a rest ih =>
    intro r h i b hb
    simp only [exceptMapM] at h
    rcases hfa : f a with e | b0 <;> rw [hfa] at h
    · simp at h
    · rcases hrec : exceptMapM f rest with e | bs <;> rw [hrec] at h
      · simp at h
      · simp only [Except.ok.injEq] at h
        subst h
        cases i with
        | zero =>
          simp only [List.get?] at hb
          exact ⟨a, rfl, by rw [hfa, ← Option.some_inj.mp hb]⟩
        | succ j =>
          simp only [List.get?] at hb ⊢
          exact ih bs hrec j b hb

theorem optionMapM_some_length {α β : Type} (f : α → Option β) :
    ∀ (l : List α) (r : List β), optionMapM f l = some r → r.length = l.length := by
  intro l
  induction l with
  | nil =>
    intro r h
    simp only [optionMapM, Option.some.injEq] at h
    subst h
    rfl
  | cons a rest ih =>
    intro r h
    simp only [optionMapM] at h
    rcases hfa : f a with _ | b <;> rw [hfa] at h
    · simp at h
    · rcases hrec : optionMapM f rest with _ | bs <;> rw [hrec] at h
      · simp at h
      · simp only [Option.some.injEq] at h
        subst h
        simp [ih bs hrec]

theorem padNone_length {l : List (Option SentimentParsed)} {n : ℕ} (h : l.length ≤ n) :
    (padNone l n).length = n := by
  simp only [padNone, List.length_append, List.length_replicate]
  omega

/-- Length of a sliceable Python value (list entries, string characters). -/
def pyValLen : PyVal → ℕ
  | .list items => items.length
  | .str s => s.length
  | _ => 0

theorem pySlice5_len {v t : PyVal} (h : pySlice5 v = some t) : pyValLen t ≤ 5 := by
  cases v <;> simp only [pySlice5] at h
  · cases h
  · rw [← Option.some_inj.mp h]
    simp only [pyValLen, String.length]
    simp [List.length_take]
  · cases h
  · cases h
  · rw [← Option.some_inj.mp h]
    simp only [pyValLen]
    simp [List.length_take]
  · cases h

/-- C4: whatever value the generative service returned for a field, a
sentiment record that is actually built (by the batch item parser or by the
single-post parser) has its score clamped into [-1,1], its confidence clamped
into [0,1] and at most 5 topics; in particular out-of-range inputs 1.7 and -2
are clamped to 1 and 0. -/
theorem c4_clamping_spec (item : PyVal) (r : SentimentParsed)
    (h : parseSentimentItem item = .ok (some r)) :
    (-1 ≤ r.score ∧ r.score ≤ 1 ∧ 0 ≤ r.confidence ∧ r.confidence ≤ 1 ∧
      pyValLen r.topics ≤ 5) ∧
    (∀ (resp : Option PyVal) (r' : SentimentParsed), analyze_single_post resp = some r' →
      -1 ≤ r'.score ∧ r'.score ≤ 1 ∧ 0 ≤ r'.confidence ∧ r'.confidence ≤ 1 ∧
        pyValLen r'.topics ≤ 5) := by
  have main : ∀ (it : PyVal) (rr : SentimentParsed), parseSentimentItem it = .ok (some rr) →
      -1 ≤ rr.score ∧ rr.score ≤ 1 ∧ 0 ≤ rr.confidence ∧ rr.confidence ≤ 1 ∧
        pyValLen rr.topics ≤ 5 := by
    intro it rr hit
    cases it <;> simp only [parseSentimentItem] at hit
    case dict fields =>
      repeat' split at hit
      all_goals simp at hit
      subst hit
      refine ⟨le_max_left _ _, max_le (by norm_num) (min_le_left _ _),
        le_max_left _ _, max_le (by norm_num) (min_le_left _ _),
        pySlice5_len (by assumption)⟩
    all_goals cases hit
  refine ⟨main item r h, ?_⟩
  intro resp r' h'
  cases resp with
  | none => exact Option.noConfusion h'
  | some v =>
    simp only [analyze_single_post] at h'
    rcases hp : parseSentimentItem v with e | rr
    · rw [hp] at h'
      exact Option.noConfusion h'
    · simp only [hp] at h'
      subst h'
      exact main v r' hp

/-- The claim's out-of-range generative output: score 1.7, confidence -2, six
topics, and a label needing normalization. -/
def c4Item : PyVal :=
  .dict [(keySentimentScore, .num (17/10)), (keySentimentLabel, .str "Positive"),
         (keyConfidence, .num (-2)),
         (keyTopics, .list [.str "a", .str "b", .str "c", .str "d", .str "e", .str "f"])]

def c4Rec : SentimentParsed :=
  { score := 1
    label := "positive"
    confidence := 0
    topics := .list [.str "a", .str "b", .str "c", .str "d", .str "e"] }

/-- Witness for C4: the out-of-range item is clamped to score 1, confidence 0
and 5 topics. -/
theorem c4_clamping_spec_witness :
    parseSentimentItem c4Item = .ok (some c4Rec) ∧
    (-1 ≤ c4Rec.score ∧ c4Rec.score ≤ 1 ∧ 0 ≤ c4Rec.confidence ∧ c4Rec.confidence ≤ 1 ∧
      pyValLen c4Rec.topics ≤ 5) := by
  have hp : parseSentimentItem c4Item = .ok (some c4Rec) := by
    simp [parseSentimentItem, c4Item, c4Rec, PyVal.lookup, keySentimentScore,
      keySentimentLabel, keyConfidence, keyTopics, pyFloat, pySlice5]
    constructor
    · norm_num [max_def, min_def]
    · decide
  exact ⟨hp, (c4_clamping_spec c4Item c4Rec hp).1⟩

def c5Contents : List String := ["p1", "p2", "p3", "p4", "p5"]

/-- A well-formed response item. -/
def c5Good (q c : ℚ) : PyVal :=
  .dict [(keySentimentScore, .num q), (keySentimentLabel, .str "positive"),
         (keyConfidence, .num c), (keyTopics, .list [.str "t"])]

/-- A malformed response item (missing fields: `KeyError`, caught per item). -/
def c5Bad : PyVal := .dict []

/-- Response valid for only 3 of the 5 inputs (slots 3 and 5 malformed). -/
def c5Items : List PyVal := [c5Good (3/10) (4/5), c5Good (-3/4) (3/5), c5Bad, c5Good 0 1, c5Bad]

def c5Expected : List (Option SentimentParsed) :=
  [some { score := 3/10, label := "positive", confidence := 4/5, topics := .list [.str "t"] },
   some { score := -3/4, label := "positive", confidence := 3/5, topics := .list [.str "t"] },
   none,
   some { score := 0, label := "positive", confidence := 1, topics := .list [.str "t"] },
   none]

theorem parse_c5Good (q c : ℚ) (hq0 : -1 ≤ q) (hq1 : q ≤ 1) (hc0 : 0 ≤ c) (hc1 : c ≤ 1) :
    parseSentimentItem (c5Good q c) =
      .ok (some { score := q, label := "positive", confidence := c, topics := .list [.str "t"] }) := by
  simp [parseSentimentItem, c5Good, PyVal.lookup, keySentimentScore, keySentimentLabel,
    keyConfidence, keyTopics, pyFloat, pySlice5]
  refine ⟨?_, by decide, ?_⟩
  · rw [min_eq_right hq1, max_eq_right hq0]
  · rw [min_eq_right hc1, max_eq_right hc0]

theorem parse_c5Bad : parseSentimentItem c5Bad = .ok none := by
  simp [parseSentimentItem, c5Bad, PyVal.lookup]

/-- C5: for every non-empty batch, `_analyze_batch` returns exactly one result
per input on every path (successful parse, per-object pattern extraction,
per-item fallback, total failure); in the parsed-list path the i-th non-padded
result is the parse of the i-th response item (None exactly for items that
could not be parsed); on the claim's scenario of 5 inputs with a response
valid for only 3, the output is exactly 5 positionally aligned entries with
None in the two malformed slots. -/
theorem c5_batch_alignment (contents : List String) (outcome : LLMParseOutcome)
    (loadObj : String → Option PyVal) (single : String → Option SentimentParsed)
    (hne : contents ≠ []) :
    (analyze_batch contents outcome loadObj single).length = contents.length ∧
    (∀ items results,
       exceptMapM parseSentimentItem (items.take contents.length) = .ok results →
       analyze_batch contents (.parsed (.list items)) loadObj single =
         results ++ List.replicate (contents.length - results.length) none ∧
       ∀ i r, results.get? i = some r →
         ∃ item, items.get? i = some item ∧ parseSentimentItem item = .ok r) ∧
    analyze_batch c5Contents (.parsed (.list c5Items)) loadObj single = c5Expected := by
  refine ⟨?_, ?_, ?_⟩
  · cases outcome with
    | otherError => simp [analyze_batch]
    | parsed v =>
      simp only [analyze_batch]
      rcases hm : exceptMapM parseSentimentItem
          ((match v with | .list l => l | x => [x]).take contents.length) with e | results
      · simp [hm]
      · have hlen := exceptMapM_ok_length _ _ _ hm
        have hle : results.length ≤ contents.length := by
          rw [hlen, List.length_take]
          omega
        simp only [hm]
        exact padNone_length hle
    | decodeError raw =>
      simp only [analyze_batch]
      by_cases hif : contents.length ≤ (findObjects raw).length
      · rw [if_pos hif]
        rcases ho : optionMapM loadObj ((findObjects raw).take contents.length) with _ | objs
        · simp [ho]
        · rcases hm : exceptMapM parseSentimentItem objs with e | results
          · simp [ho, hm]
          · have h1 := optionMapM_some_length _ _ _ ho
            have h2 := exceptMapM_ok_length _ _ _ hm
            simp only [ho, hm]
            refine padNone_length ?_
            rw [h2, h1, List.length_take]
            omega
      · rw [if_neg hif]
        simp
  · intro items results hm
    constructor
    · simp only [analyze_batch, hm, padNone]
    · intro i r hr
      obtain ⟨a, ha, hfa⟩ := exceptMapM_ok_get parseSentimentItem _ _ hm i r hr
      have hi : i < (items.take contents.length).length := by
        by_contra hge
        rw [List.get?_eq_none.mpr (le_of_not_lt hge)] at ha
        cases ha
      rw [List.length_take] at hi
      refine ⟨a, ?_, hfa⟩
      rw [← ha, List.get?_take]
      omega
  · have h1 := parse_c5Good (3/10) (4/5) (by norm_num) (by norm_num) (by norm_num) (by norm_num)
    have h2 := parse_c5Good (-3/4) (3/5) (by norm_num) (by norm_num) (by norm_num) (by norm_num)
    have h3 := parse_c5Good 0 1 (by norm_num) (by norm_num) (by norm_num) (by norm_num)
    simp only [analyze_batch, c5Contents, c5Items, c5Expected]
    simp [exceptMapM, h1, h2, h3, parse_c5Bad, padNone]

/-- Witness for C5: the 5-input scenario, with arbitrary oracles for the
unused recovery paths. -/
theorem c5_batch_alignment_witness :
    c5Contents ≠ [] ∧
    analyze_batch c5Contents (.parsed (.list c5Items)) (fun _ => none) (fun _ => none) =
      c5Expected := by
  refine ⟨by simp [c5Contents], ?_⟩
  exact (c5_batch_alignment c5Contents (.parsed (.list c5Items)) (fun _ => none)
    (fun _ => none) (by simp [c5Contents])).2.2

/-! ## C8 : the two `_clean_json` repair pipelines

`SentimentAnalysisAgent._clean_json` (sentiment_analyzer.py lines 74-121)
applies: fence stripping, bracket trimming, trailing-comma removal, missing
comma between adjacent braces, missing comma between a brace and a quote,
missing comma between a quoted value and a quoted key across a newline,
single-quote normalization when no double quote occurs, control-character
stripping, and literal backslash-n / backslash-t removal.
`GapDetectionAgent._clean_json` (gap_detector.py lines 56-80) applies only
fence stripping, bracket trimming and trailing-comma removal.
Each `re.sub`/`str.replace` is embedded as a left-to-right non-overlapping
scan over the character list. -/

def isPySpace (c : Char) : Bool :=
  c == ' ' || c == '\t' || c == '\n' || c == '\r' || c == '\x0b' || c == '\x0c'

def pyStripList (cs : List Char) : List Char :=
  ((cs.dropWhile isPySpace).reverse.dropWhile isPySpace).reverse

/-- Python `text.split('```')` on characters. -/
def splitBackticks : List Char → List (List Char)
  | [] => [[]]
  | '\x60' :: '\x60' :: '\x60' :: rest => [] :: splitBackticks rest
  | c :: rest =>
    match splitBackticks rest with
    | [] => [[c]]
    | g :: gs => (c :: g) :: gs

/-- The fence-stripping stage shared by both cleaners (strip a leading code
fence, an optional `json` tag, and surrounding whitespace). -/
def stripFences (cs : List Char) : List Char :=
  match cs with
  | '\x60' :: '\x60' :: '\x60' :: _ =>
    let t := ((splitBackticks cs).get? 1).getD []
    let t := match t with
      | 'j' :: 's' :: 'o' :: 'n' :: rest => rest
      | _ => t
    pyStripList t
  | _ => cs

def isOpenBracket (c : Char) : Bool := c == '[' || c == '\x7b'
def isCloseBracket (c : Char) : Bool := c == ']' || c == '\x7d'

/-- Truncate to the span from the first `[`/`{` to the last `]`/`}`. -/
def trimToBrackets (cs : List Char) : List Char :=
  let cs :=
    match List.findIdx? isOpenBracket cs with
    | some i => cs.drop i
    | none => cs
  match List.findIdx? isCloseBracket cs.reverse with
  | some j => cs.take (cs.length - j)
  | none => cs

/-- `re.sub(r',\s*([\x7d\]])', r'\1', text)`: drop a trailing comma before a
closing bracket.  The fuel argument (instantiated with the list length, which
bounds the scan) keeps the recursion structural so that concrete inputs
evaluate inside the kernel. -/
def subCommaCloseF : ℕ → List Char → List Char
  | 0, cs => cs
  | _, [] => []
  | fuel+1, c :: rest =>
    if c = ',' then
      match rest.dropWhile isPySpace with
      | d :: r2 =>
        if isCloseBracket d then d :: subCommaCloseF fuel r2
        else c :: subCommaCloseF fuel rest
      | [] => c :: subCommaCloseF fuel rest
    else c :: subCommaCloseF fuel rest

def subCommaClose (cs : List Char) : List Char := subCommaCloseF cs.length cs

/-- `re.sub(r'\x7d\s*\x7b', '\x7d,\x7b', text)`: insert a missing comma
between adjacent objects. -/
def subBraceBraceF : ℕ → List Char → List Char
  | 0, cs => cs
  | _, [] => []
  | fuel+1, c :: rest =>
    if c = '\x7d' then
      match rest.dropWhile isPySpace with
      | d :: r2 =>
        if d = '\x7b' then '\x7d' :: ',' :: '\x7b' :: subBraceBraceF fuel r2
        else c :: subBraceBraceF fuel rest
      | [] => c :: subBraceBraceF fuel rest
    else c :: subBraceBraceF fuel rest

def subBraceBrace (cs : List Char) : List Char := subBraceBraceF cs.length cs

/-- `re.sub(r'\x7d\s*"', '\x7d, "', text)`: insert a missing comma between a
closing brace and a following quote. -/
def subBraceQuoteF : ℕ → List Char → List Char
  | 0, cs => cs
  | _, [] => []
  | fuel+1, c :: rest =>
    if c = '\x7d' then
      match rest.dropWhile isPySpace with
      | d :: r2 =>
        if d = '"' then '\x7d' :: ',' :: ' ' :: '"' :: subBraceQuoteF fuel r2
        else c :: subBraceQuoteF fuel rest
      | [] => c :: subBraceQuoteF fuel rest
    else c :: subBraceQuoteF fuel rest

def subBraceQuote (cs : List Char) : List Char := subBraceQuoteF cs.length cs

/-- `re.sub(r'"\s*\n\s*"', '", "', text)`: insert a missing comma between a
quoted value and a quoted key separated by a newline. -/
def subQuoteNlQuoteF : ℕ → List Char → List Char
  | 0, cs => cs
  | _, [] => []
  | fuel+1, c :: rest =>
    if c = '"' then
      match rest.dropWhile isPySpace with
      | d :: r2 =>
        if d = '"' then
          if (rest.takeWhile isPySpace).contains '\n' then
            '"' :: ',' :: ' ' :: '"' :: subQuoteNlQuoteF fuel r2
          else c :: subQuoteNlQuoteF fuel rest
        else c :: subQuoteNlQuoteF fuel rest
      | [] => c :: subQuoteNlQuoteF fuel rest
    else c :: subQuoteNlQuoteF fuel rest

def subQuoteNlQuote (cs : List Char) : List Char := subQuoteNlQuoteF cs.length cs

/-- `text.replace("'", '"')` applied only when no double quote occurs. -/
def quoteNormalize (cs : List Char) : List Char :=
  if cs.contains '"' then cs
  else cs.map fun c => if c = '\'' then '"' else c

/-- `re.sub(r'[\x00-\x1f\x7f]', ' ', text)`. -/
def controlStrip (cs : List Char) : List Char :=
  cs.map fun c => if c.toNat ≤ 31 ∨ c.toNat = 127 then ' ' else c

/-- `text.replace(a+b, ' ')` for a two-character sequence. -/
def replacePairSpace (a b : Char) : List Char → List Char
  | [] => []
  | [x] => [x]
  | x :: y :: rest =>
    if x = a ∧ y = b then ' ' :: replacePairSpace a b rest
    else x :: replacePairSpace a b (y :: rest)

/-- `SentimentAnalysisAgent._clean_json`. -/
def sentiment_clean_json (text : String) : String :=
  let cs := stripFences text.toList
  let cs := trimToBrackets cs
  let cs := subCommaClose cs
  let cs := subBraceBrace cs
  let cs := subBraceQuote cs
  let cs := subQuoteNlQuote cs
  let cs := quoteNormalize cs
  let cs := controlStrip cs
  let cs := replacePairSpace '\\' 'n' cs
  let cs := replacePairSpace '\\' 't' cs
  String.mk cs

/-- `GapDetectionAgent._clean_json`. -/
def gap_clean_json (text : String) : String :=
  let cs := stripFences text.toList
  let cs := trimToBrackets cs
  String.mk (subCommaClose cs)

def c8MissingComma : String := "[\x7b\"a\":1\x7d \x7b\"b\":2\x7d]"
def c8Bare : String := "[\x7b\"a\":1\x7d]"
def c8Fenced : String := "\x60\x60\x60json\n[\x7b\"a\":1\x7d]\n\x60\x60\x60"
def c8Trailing : String := "[\x7b\"a\":1,\x7d]"

/-- C8 counterexample: the two modes do NOT share the same repair pipeline.
On `[{"a":1} {"b":2}]` the sentiment cleaner inserts the missing comma
(stage-3 repair) while the match-judgment cleaner returns the text unchanged,
so the text handed to the strict parser differs between the modes. -/
theorem c8_same_pipeline_counterexample :
    gap_clean_json c8MissingComma = c8MissingComma ∧
    sentiment_clean_json c8MissingComma = "[\x7b\"a\":1\x7d,\x7b\"b\":2\x7d]" ∧
    gap_clean_json c8MissingComma ≠ sentiment_clean_json c8MissingComma := by
  decide

/-- C8 (amended): sentiment mode applies the full repair pipeline including
the stage-3 textual repairs, while match-judgment mode applies only fence
stripping, bracket trimming and trailing-comma removal; under each mode's own
pipeline the fenced input cleans to exactly the bare `[{"a":1}]` (hence parses
identically to it), and both modes share the trailing-comma repair. -/
theorem c8_clean_json_spec :
    sentiment_clean_json c8Fenced = c8Bare ∧ gap_clean_json c8Fenced = c8Bare ∧
    sentiment_clean_json c8Bare = c8Bare ∧ gap_clean_json c8Bare = c8Bare ∧
    sentiment_clean_json c8Trailing = c8Bare ∧ gap_clean_json c8Trailing = c8Bare := by
  decide

/-! ## C2 / C3 / C10 : ReportingAgent.fetch_recent_gaps and rank_gaps

Embedding of src/agents/reporter.py lines 60-159.  A `DetectedGapRow` is a row
of the `detected_gaps` table as the fetch query reads it.  The SQL
`row_number() over (partition by contract_id, gap_type order by detected_at
desc)` filtered to `rn = 1` is embedded as the 0-based position in the
partition sorted by `detected_at` descending, plus one; with distinct
timestamps inside a partition (the theorems' hypothesis) this is exactly the
SQL semantics.  The pagination limits (`limit*2` on the id subquery and
`limit` on the final query) are elided: they bound output size without
changing which candidate of a group is preferred.  The final `order_by
(confidence_score desc, detected_at desc)` is a sort with `fetchOrderRel`.
`rank_gaps` mirrors the Python loop: computing the composite score raises
`TypeError` at `min(edge, 20)` when the fetched `edge_percentage` is `None`
(which `fetch_recent_gaps` produces for a stored NULL **or zero** edge, since
`float(x) if x else None` treats zero as falsy); the `.get` default 0 applies
only when the key is absent; `sorted(..., reverse=True)` is a stable
descending sort, embedded as insertion sort with the non-strict relation. -/

structure DetectedGapRow where
  contract_id : ℕ
  gap_type : String
  confidence_score : ℤ
  edge_percentage : Option ℚ
  detected_at : ℕ
  resolved : Bool
deriving DecidableEq, Repr

/-- The subquery filter: unresolved and confidence at or above the minimum. -/
def gapQualifies (minConf : ℤ) (g : DetectedGapRow) : Bool :=
  !g.resolved && decide (minConf ≤ g.confidence_score)

/-- Same (contract, gap_type) partition. -/
def sameGroup (a b : DetectedGapRow) : Bool :=
  a.contract_id == b.contract_id && a.gap_type == b.gap_type

def gapPartition (minConf : ℤ) (g : DetectedGapRow) (rows : List DetectedGapRow) :
    List DetectedGapRow :=
  rows.filter fun g' => gapQualifies minConf g' && sameGroup g g'

/-- `order by detected_at desc`. -/
def laterFirst (a b : DetectedGapRow) : Prop := b.detected_at ≤ a.detected_at

instance : DecidableRel laterFirst :=
  fun a b => inferInstanceAs (Decidable (b.detected_at ≤ a.detected_at))

instance : IsTotal DetectedGapRow laterFirst :=
  ⟨fun a b => le_total b.detected_at a.detected_at⟩

instance : IsTrans DetectedGapRow laterFirst :=
  ⟨fun _ _ _ hab hbc => le_trans hbc hab⟩

/-- `row_number()` of `g` within its qualifying partition, ordered by
detected_at descending. -/
def rowNumber (minConf : ℤ) (g : DetectedGapRow) (rows : List DetectedGapRow) : ℕ :=
  ((gapPartition minConf g rows).insertionSort laterFirst).indexOf g + 1

/-- The dedup step of `fetch_recent_gaps`: qualifying rows whose row number in
their partition is 1. -/
def fetch_dedup (minConf : ℤ) (rows : List DetectedGapRow) : List DetectedGapRow :=
  rows.filter fun g => gapQualifies minConf g && rowNumber minConf g rows == 1

/-- One gap dictionary as built by `fetch_recent_gaps` (the fields the ranking
reads).  `edge_entry = none` models an absent key, `some none` a key present
with value `None`, `some (some q)` a number. -/
structure FetchedGap where
  confidence_score : ℤ
  edge_entry : Option (Option ℚ)
  detected_at : ℕ
deriving DecidableEq, Repr

/-- The dictionary built per row: the `edge_percentage` key is always present;
`float(gap.edge_percentage) if gap.edge_percentage else None` maps a NULL or
zero stored value to `None`. -/
def fetch_project (g : DetectedGapRow) : FetchedGap :=
  { confidence_score := g.confidence_score
    edge_entry := some (match g.edge_percentage with
                        | none => none
                        | some q => if q = 0 then none else some q)
    detected_at := g.detected_at }

/-- `order_by(confidence_score desc, detected_at desc)`. -/
def fetchOrderRel (a b : DetectedGapRow) : Prop :=
  b.confidence_score < a.confidence_score ∨
    (b.confidence_score = a.confidence_score ∧ b.detected_at ≤ a.detected_at)

instance : DecidableRel fetchOrderRel :=
  fun a b => inferInstanceAs (Decidable (_ ∨ _))

def fetch_recent_gaps (minConf : ℤ) (rows : List DetectedGapRow) : List FetchedGap :=
  (((fetch_dedup minConf rows).insertionSort fetchOrderRel).map fetch_project)

def tyErr : String := "TypeError"

/-- The composite-score assignment for one gap dictionary:
`confidence * 0.7 + min(edge, 20) * 1.5` with `edge = gap.get('edge_percentage', 0)`;
`min(None, 20)` raises `TypeError`. -/
def compositeOf (g : FetchedGap) : Except String ℚ :=
  match g.edge_entry with
  | none => .ok ((g.confidence_score : ℚ) * (7/10) + min 0 20 * (3/2))
  | some none => .error tyErr
  | some (some e) => .ok ((g.confidence_score : ℚ) * (7/10) + min e 20 * (3/2))

/-- One step of the scoring loop: pair the gap with its composite score. -/
def scoredStep (g : FetchedGap) : Except String (FetchedGap × ℚ) :=
  (compositeOf g).map fun c => (g, c)

/-- The `for gap in gaps:` loop computing composite scores, aborting at the
first `TypeError`. -/
def scoredOf (gaps : List FetchedGap) : Except String (List (FetchedGap × ℚ)) :=
  exceptMapM scoredStep gaps

structure RankedGap where
  gap : FetchedGap
  composite_score : ℚ
  rank : ℕ
deriving DecidableEq, Repr

/-- `sorted(gaps, key=..., reverse=True)` is stable; equal keys keep input
order, which insertion sort with the non-strict descending relation gives. -/
def scoreRel (a b : FetchedGap × ℚ) : Prop := b.2 ≤ a.2

instance : DecidableRel scoreRel :=
  fun a b => inferInstanceAs (Decidable (b.2 ≤ a.2))

instance : IsTotal (FetchedGap × ℚ) scoreRel := ⟨fun a b => le_total b.2 a.2⟩

instance : IsTrans (FetchedGap × ℚ) scoreRel := ⟨fun _ _ _ hab hbc => le_trans hbc hab⟩

/-- `for i, gap in enumerate(ranked, 1): gap['rank'] = i`. -/
def addRanks : ℕ → List (FetchedGap × ℚ) → List RankedGap
  | _, [] => []
  | i, (g, c) :: rest => { gap := g, composite_score := c, rank := i } :: addRanks (i+1) rest

def rank_gaps (gaps : List FetchedGap) : Except String (List RankedGap) :=
  match scoredOf gaps with
  | .error e => .error e
  | .ok scored => .ok (addRanks 1 (scored.insertionSort scoreRel))

theorem sameGroup_self (g : DetectedGapRow) : sameGroup g g = true := by
  simp [sameGroup]

theorem sameGroup_symm {a b : DetectedGapRow} (h : sameGroup a b = true) :
    sameGroup b a = true := by
  simp only [sameGroup, Bool.and_eq_true, beq_iff_eq] at h ⊢
  exact ⟨h.1.symm, h.2.symm⟩

/-- C2: among the unresolved gap candidates at or above the confidence
minimum, with distinct detection times inside each (contract, gap_type) group,
the dedup step keeps a qualifying candidate iff it is the latest of its group;
every older qualifying candidate of the same group is excluded from the
output; and the output is a selection from the stored rows (nothing is
deleted). -/
theorem c2_dedup_latest_wins (minConf : ℤ) (rows : List DetectedGapRow)
    (hdist : ∀ a ∈ rows, ∀ b ∈ rows, sameGroup a b → a.detected_at = b.detected_at → a = b) :
    (∀ g ∈ rows, gapQualifies minConf g →
       (g ∈ fetch_dedup minConf rows ↔
         ∀ g' ∈ rows, gapQualifies minConf g' → sameGroup g g' →
           g'.detected_at ≤ g.detected_at)) ∧
    (∀ g1 g2, g1 ∈ rows → g2 ∈ rows → gapQualifies minConf g1 → gapQualifies minConf g2 →
       sameGroup g1 g2 → g1.detected_at < g2.detected_at →
       g1 ∉ fetch_dedup minConf rows) ∧
    (fetch_dedup minConf rows).Sublist rows := by
  have key : ∀ g ∈ rows, gapQualifies minConf g →
      (g ∈ fetch_dedup minConf rows ↔
        ∀ g' ∈ rows, gapQualifies minConf g' → sameGroup g g' →
          g'.detected_at ≤ g.detected_at) := by
    intro g hg hq
    have hgP : g ∈ gapPartition minConf g rows := by
      simp only [gapPartition, List.mem_filter]
      exact ⟨hg, by simp [hq, sameGroup_self]⟩
    have hgS : g ∈ (gapPartition minConf g rows).insertionSort laterFirst := by
      rw [List.mem_insertionSort]
      exact hgP
    have hsorted : List.Sorted laterFirst ((gapPartition minConf g rows).insertionSort laterFirst) :=
      List.sorted_insertionSort laterFirst _
    have hmemiff : g ∈ fetch_dedup minConf rows ↔ rowNumber minConf g rows = 1 := by
      simp only [fetch_dedup, List.mem_filter, Bool.and_eq_true, beq_iff_eq]
      constructor
      · rintro ⟨_, _, h⟩
        exact h
      · intro h
        exact ⟨hg, hq, h⟩
    rw [hmemiff]
    rcases hs : (gapPartition minConf g rows).insertionSort laterFirst with _ | ⟨hd, tl⟩
    · rw [hs] at hgS
      cases hgS
    have hhd : hd ∈ gapPartition minConf g rows := by
      have : hd ∈ (gapPartition minConf g rows).insertionSort laterFirst := by
        rw [hs]
        exact List.mem_cons_self _ _
      rwa [List.mem_insertionSort] at this
    have hhdP := List.mem_filter.mp hhd
    have hhdq : gapQualifies minConf hd := by
      have := hhdP.2
      simp only [Bool.and_eq_true] at this
      exact this.1
    have hhdsame : sameGroup g hd = true := by
      have := hhdP.2
      simp only [Bool.and_eq_true] at this
      exact this.2
    constructor
    · intro hrn g' hg' hq' hsame
      have hidx : (List.indexOf g (hd :: tl)) = 0 := by
        simp only [rowNumber, hs] at hrn
        omega
      have hhdg : hd = g := by
        by_contra hne
        rw [List.indexOf_cons_ne _ hne] at hidx
        cases hidx
      subst hhdg
      have hg'P : g' ∈ gapPartition minConf hd rows := by
        simp only [gapPartition, List.mem_filter]
        exact ⟨hg', by simp [hq', hsame]⟩
      have hg'S : g' ∈ hd :: tl := by
        rw [← hs, List.mem_insertionSort]
        exact hg'P
      rcases List.mem_cons.mp hg'S with h | h
      · rw [h]
      · rw [hs] at hsorted
        exact List.rel_of_sorted_cons hsorted g' h
    · intro hmax
      have hhdle : hd.detected_at ≤ g.detected_at :=
        hmax hd hhdP.1 hhdq hhdsame
      have hghd : g.detected_at ≤ hd.detected_at := by
        rw [hs] at hgS
        rcases List.mem_cons.mp hgS with h | h
        · rw [h]
        · rw [hs] at hsorted
          exact List.rel_of_sorted_cons hsorted g h
      have heq : hd = g :=
        hdist hd hhdP.1 g hg (sameGroup_symm hhdsame) (le_antisymm hhdle hghd)
      simp only [rowNumber, hs, heq, List.indexOf_cons_self]
  refine ⟨key, ?_, List.filter_sublist _⟩
  intro g1 g2 h1 h2 hq1 hq2 hsame hlt hmem
  have := (key g1 h1 hq1).mp hmem g2 h2 hq2 hsame
  omega

def c2Old : DetectedGapRow :=
  { contract_id := 1, gap_type := gtSentimentMismatch, confidence_score := 75,
    edge_percentage := some 5, detected_at := 1, resolved := false }

def c2New : DetectedGapRow :=
  { contract_id := 1, gap_type := gtSentimentMismatch, confidence_score := 80,
    edge_percentage := some 7, detected_at := 2, resolved := false }

def c2Rows : List DetectedGapRow := [c2Old, c2New]

/-- Witness for C2: of two qualifying candidates of the same (contract,
gap_type) group, only the later-detected one survives the dedup step, and the
older one is still present in the stored rows. -/
theorem c2_dedup_latest_wins_witness :
    c2New ∈ fetch_dedup 60 c2Rows ∧ c2Old ∉ fetch_dedup 60 c2Rows ∧ c2Old ∈ c2Rows := by
  have h := c2_dedup_latest_wins 60 c2Rows (by decide)
  refine ⟨?_, ?_, by decide⟩
  · exact (h.1 c2New (by decide) (by decide)).mpr (by decide)
  · exact h.2.1 c2Old c2New (by decide) (by decide) (by decide) (by decide) (by decide)
      (by decide)

theorem addRanks_map_pair :
    ∀ (i : ℕ) (l : List (FetchedGap × ℚ)),
      (addRanks i l).map (fun e => (e.gap, e.composite_score)) = l := by
  intro i l
  induction l generalizing i with
  | nil => rfl
  | cons p rest ih =>
    cases p with
    | mk g c => simp [addRanks, ih]

theorem addRanks_length :
    ∀ (i : ℕ) (l : List (FetchedGap × ℚ)), (addRanks i l).length = l.length := by
  intro i l
  induction l generalizing i with
  | nil => rfl
  | cons p rest ih =>
    cases p with
    | mk g c => simp [addRanks, ih]

theorem addRanks_map_rank :
    ∀ (i : ℕ) (l : List (FetchedGap × ℚ)),
      (addRanks i l).map RankedGap.rank = List.range' i l.length := by
  intro i l
  induction l generalizing i with
  | nil => rfl
  | cons p rest ih =>
    cases p with
    | mk g c => simp [addRanks, ih, List.range']

theorem scoredStep_ok {g : FetchedGap} {p : FetchedGap × ℚ} (h : scoredStep g = .ok p) :
    p.1 = g ∧ compositeOf g = .ok p.2 := by
  simp only [scoredStep] at h
  rcases hc : compositeOf g with e | c <;> rw [hc] at h <;> simp only [Except.map] at h
  · cases h
  · injection h with h2
    subst h2
    exact ⟨rfl, rfl⟩

theorem scoredOf_ok_mem :
    ∀ (gaps : List FetchedGap) (s : List (FetchedGap × ℚ)), scoredOf gaps = .ok s →
      ∀ p ∈ s, compositeOf p.1 = .ok p.2 := by
  intro gaps
  induction gaps with
  | nil =>
    intro s h p hp
    simp only [scoredOf, exceptMapM, Except.ok.injEq] at h
    subst h
    cases hp
  | cons g rest ih =>
    intro s h p hp
    simp only [scoredOf, exceptMapM] at h
    rcases hc : scoredStep g with e | pc <;> rw [hc] at h
    · cases h
    · rcases hrec : exceptMapM scoredStep rest with e | s0 <;> rw [hrec] at h
      · cases h
      · simp only [Except.ok.injEq] at h
        subst h
        rcases List.mem_cons.mp hp with hpg | hpm
        · subst hpg
          obtain ⟨h1, h2⟩ := scoredStep_ok hc
          rw [h1]
          exact h2
        · exact ih s0 (by simp only [scoredOf, hrec]) p hpm

/-- C3 (amended): `rank_gaps` assigns each candidate
`composite_score = confidence*0.7 + min(edge_percentage, 20)*1.5`, the output
is monotonically non-increasing in composite score, ranks are consecutive and
1-based, and ties between equal composite scores preserve the order of the
input list (the Python sort is stable); since the fetch step orders by
(confidence desc, detected_at desc), an equal-composite tie is broken by
higher confidence first and only then by later detection time — not by
later detection time alone. -/
theorem c3_rank_gaps_spec (gaps : List FetchedGap) (out : List RankedGap)
    (h : rank_gaps gaps = .ok out) :
    (∀ e ∈ out, compositeOf e.gap = .ok e.composite_score) ∧
    out.Pairwise (fun a b => b.composite_score ≤ a.composite_score) ∧
    out.map RankedGap.rank = List.range' 1 out.length ∧
    (∀ s, scoredOf gaps = .ok s →
       ∀ p q : FetchedGap × ℚ, p.2 = q.2 → [p, q].Sublist s →
         [p, q].Sublist (out.map fun e => (e.gap, e.composite_score))) := by
  rcases hs0 : scoredOf gaps with e | s0
  · rw [rank_gaps, hs0] at h
    cases h
  rw [rank_gaps, hs0] at h
  simp only [Except.ok.injEq] at h
  subst h
  have hpair := addRanks_map_pair 1 (s0.insertionSort scoreRel)
  refine ⟨?_, ?_, ?_, ?_⟩
  · intro e he
    have hmem : (e.gap, e.composite_score) ∈
        (addRanks 1 (s0.insertionSort scoreRel)).map (fun e => (e.gap, e.composite_score)) :=
      List.mem_map_of_mem _ he
    rw [hpair, List.mem_insertionSort] at hmem
    exact scoredOf_ok_mem gaps s0 hs0 _ hmem
  · have hsorted : List.Sorted scoreRel (s0.insertionSort scoreRel) :=
      List.sorted_insertionSort scoreRel s0
    rw [← hpair] at hsorted
    exact List.pairwise_map.mp hsorted
  · rw [addRanks_map_rank, addRanks_length]
  · intro s hs p q hpq hsub
    have hss : s = s0 := (Except.ok.inj hs).symm
    subst hss
    rw [hpair]
    exact List.pair_sublist_insertionSort (le_of_eq hpq.symm) hsub

def c3Row1 : DetectedGapRow :=
  { contract_id := 1, gap_type := gtSentimentMismatch, confidence_score := 100,
    edge_percentage := some 6, detected_at := 1, resolved := false }

def c3Row2 : DetectedGapRow :=
  { contract_id := 1, gap_type := gtPatternDeviation, confidence_score := 70,
    edge_percentage := some 20, detected_at := 2, resolved := false }

def c3Fetched1 : FetchedGap :=
  { confidence_score := 100, edge_entry := some (some 6), detected_at := 1 }

def c3Fetched2 : FetchedGap :=
  { confidence_score := 70, edge_entry := some (some 20), detected_at := 2 }

def c3Out : List RankedGap :=
  [{ gap := c3Fetched1, composite_score := 79, rank := 1 },
   { gap := c3Fetched2, composite_score := 79, rank := 2 }]

/-- C3 counterexample: two stored candidates tie at composite score 79
(100*0.7 + min(6,20)*1.5 and 70*0.7 + min(20,20)*1.5), but through
`fetch_recent_gaps` (which orders by confidence desc, detected_at desc) and
the stable sort of `rank_gaps`, the candidate with the EARLIER detected_at
(1 < 2) receives rank 1 — ties are NOT broken by placing the later
detected_at first. -/
theorem c3_tiebreak_counterexample :
    fetch_recent_gaps 60 [c3Row1, c3Row2] = [c3Fetched1, c3Fetched2] ∧
    rank_gaps [c3Fetched1, c3Fetched2] = .ok c3Out ∧
    (c3Out.map fun e => e.composite_score) = [79, 79] ∧
    (c3Out.map fun e => e.gap.detected_at) = [1, 2] ∧
    (c3Out.map fun e => e.rank) = [1, 2] := by
  refine ⟨by decide, ?_, ?_, by decide, by decide⟩
  · simp [rank_gaps, scoredOf, exceptMapM, scoredStep, compositeOf, c3Fetched1, c3Fetched2,
      c3Out, List.insertionSort, List.orderedInsert, scoreRel, addRanks, min_def, Except.map]
    norm_num
    simp [addRanks]
  · simp [c3Out, c3Fetched1, c3Fetched2]

/-- Witness for C3 (amended): the concrete ranked output of the tied pair
satisfies the composite formula, monotone order and consecutive ranks. -/
theorem c3_rank_gaps_spec_witness :
    c3Out.Pairwise (fun a b => b.composite_score ≤ a.composite_score) ∧
    c3Out.map RankedGap.rank = List.range' 1 c3Out.length := by
  have hr : rank_gaps [c3Fetched1, c3Fetched2] = .ok c3Out := by
    simp [rank_gaps, scoredOf, exceptMapM, scoredStep, compositeOf, c3Fetched1, c3Fetched2,
      c3Out, List.insertionSort, List.orderedInsert, scoreRel, addRanks, min_def, Except.map]
    norm_num
    simp [addRanks]
  have h := c3_rank_gaps_spec [c3Fetched1, c3Fetched2] c3Out hr
  exact ⟨h.2.1, h.2.2.1⟩

theorem compositeOf_error_eq {g : FetchedGap} {e : String} (h : compositeOf g = .error e) :
    e = tyErr := by
  rcases hge : g.edge_entry with _ | oe
  · simp [compositeOf, hge] at h
  · rcases oe with _ | q
    · simp [compositeOf, hge] at h
      exact h.symm
    · simp [compositeOf, hge] at h

theorem scoredStep_error_eq {a : FetchedGap} {e : String} (h : scoredStep a = .error e) :
    e = tyErr := by
  simp only [scoredStep] at h
  rcases hc : compositeOf a with e' | c <;> rw [hc] at h <;> simp only [Except.map] at h
  · injection h with h2
    rw [← h2]
    exact compositeOf_error_eq hc
  · cases h

theorem scoredOf_error (g : FetchedGap) (hge : g.edge_entry = some none) :
    ∀ gaps : List FetchedGap, g ∈ gaps → scoredOf gaps = .error tyErr := by
  intro gaps
  induction gaps with
  | nil =>
    intro hg
    cases hg
  | cons a rest ih =>
    intro hg
    simp only [scoredOf, exceptMapM]
    rcases List.mem_cons.mp hg with h | h
    · subst h
      simp [scoredStep, compositeOf, hge, Except.map, tyErr]
    · rcases hca : scoredStep a with e | pc
      · simp only [hca, scoredStep_error_eq hca]
      · have hrest := ih h
        simp only [scoredOf] at hrest
        simp only [hca, hrest]

def c10Row : DetectedGapRow :=
  { contract_id := 1, gap_type := gtSentimentMismatch, confidence_score := 80,
    edge_percentage := some 0, detected_at := 1, resolved := false }

/-- C10: `rank_gaps` is not total over the dictionaries its own fetch step
produces: `fetch_recent_gaps` maps a stored edge that is NULL or zero to the
value `None` (the key stays present), and any input gap whose edge key is
present with value `None` makes `rank_gaps` raise `TypeError` at
`min(edge, 20)` instead of returning a ranked list; the `.get` default 0
applies only when the key is absent entirely; in particular the full pipeline
on a stored zero-edge row ends in `TypeError`. -/
theorem c10_rank_gaps_not_total :
    (∀ r : DetectedGapRow, (r.edge_percentage = none ∨ r.edge_percentage = some 0) →
       (fetch_project r).edge_entry = some none) ∧
    (∀ (gaps : List FetchedGap) (g : FetchedGap), g ∈ gaps → g.edge_entry = some none →
       rank_gaps gaps = .error tyErr) ∧
    (∀ g : FetchedGap, g.edge_entry = none →
       compositeOf g = .ok ((g.confidence_score : ℚ) * (7/10))) ∧
    rank_gaps (fetch_recent_gaps 60 [c10Row]) = .error tyErr := by
  refine ⟨?_, ?_, ?_, ?_⟩
  · intro r h
    rcases h with h | h <;> simp [fetch_project, h]
  · intro gaps g hg hge
    have hs := scoredOf_error g hge gaps hg
    simp only [rank_gaps, hs]
  · intro g hge
    simp only [compositeOf, hge]
    norm_num [min_def]
  · have hf : fetch_recent_gaps 60 [c10Row] =
        [{ confidence_score := 80, edge_entry := some none, detected_at := 1 }] := by
      decide
    have hs := scoredOf_error
      { confidence_score := 80, edge_entry := some none, detected_at := 1 } rfl
      [{ confidence_score := 80, edge_entry := some none, detected_at := 1 }]
      (List.mem_cons_self _ _)
    rw [hf]
    simp only [rank_gaps, hs]

/-- Witness for C10: a stored zero edge projects to a present-None entry,
ranking a gap with a present-None entry raises `TypeError`, and an absent key
falls back to the default edge 0. -/
theorem c10_rank_gaps_not_total_witness :
    (fetch_project c10Row).edge_entry = some none ∧
    rank_gaps [{ confidence_score := 80, edge_entry := some none, detected_at := 1 }] =
      .error tyErr ∧
    compositeOf { confidence_score := 80, edge_entry := none, detected_at := 1 } =
      .ok (((80:ℤ) : ℚ) * (7/10)) := by
  have h := c10_rank_gaps_not_total
  exact ⟨h.1 c10Row (Or.inr rfl), h.2.1 _ _ (List.mem_cons_self _ _) rfl, h.2.2.1 _ rfl⟩
